import Mathlib

/-!
Verification of the array-capability layer of `src/equistore/data.py`.

The Python module bridges host-language arrays (numpy `ndarray`, torch
`Tensor`) to the native core's `eqs_array_t` vtable.  We embed the data
model shallowly: an n-dimensional numeric array is a shape together with
its row-major flat data (numpy and torch arrays used through this module
are row-major, per the module's own documentation).  The Python callback
functions `_eqs_array_shape`, `_eqs_array_reshape`, `_eqs_array_swap_axes`,
`_eqs_array_create`, `_eqs_array_copy`, `_eqs_array_destroy` and
`_eqs_array_move_samples_from` become Lean functions over this model; the
collection of live `ArrayWrapper` Python objects becomes a heap (list of
wrappers indexed by handle), and exceptions raised inside a callback
(converted to error statuses by `catch_exceptions`) become error values.
-/

namespace Equistore

/-- The host array backends recognised by `data.py` (`_is_numpy_array` /
`_is_torch_array`). -/
inductive Backend where
  | numpy
  | torch
deriving DecidableEq, Repr

/-- Error outcomes surfaced through `catch_exceptions` (which turns any
Python exception inside a callback into a non-zero status) or raised by the
native core.  Constructors are named after the spec's error kinds where one
applies; `broadcastMismatch` is the numpy `ValueError` raised when the
right-hand side of a fancy assignment does not fit the addressed slot, and
`pyError` covers the remaining Python exceptions (e.g. using a wrapper
whose array was destroyed). -/
inductive EqsError where
  | invalidShape
  | axisOutOfRange
  | originMismatch
  | indexOutOfBounds
  | broadcastMismatch
  | unknownOrigin
  | invalidHandle
  | pyError
deriving DecidableEq, Repr

/-! ## Row-major index arithmetic

`flatten` and `unflatten` convert between a multi-index and the flat
row-major offset for a given shape; `swapNat`/`listSwap` model exchanging
two axes. -/

/-- Row-major flat offset of multi-index `idx` in an array of shape `s`. -/
def flatten : (s idx : List Nat) → Nat
  | _ :: ds, i :: is => i * ds.prod + flatten ds is
  | _, _ => 0

/-- Multi-index of the flat row-major offset `k` in an array of shape `s`. -/
def unflatten : (s : List Nat) → Nat → List Nat
  | [], _ => []
  | _ :: ds, k => k / ds.prod :: unflatten ds (k % ds.prod)

/-- Predicate: `idx` is a valid multi-index for shape `s`: same rank, every coordinate
within bounds. -/
def validIdx : (idx s : List Nat) → Prop
  | [], [] => True
  | i :: is, d :: ds => i < d ∧ validIdx is ds
  | _, _ => False

instance validIdxDec : (idx s : List Nat) → Decidable (validIdx idx s)
  | [], [] => .isTrue trivial
  | [], _ :: _ => .isFalse fun h => h
  | _ :: _, [] => .isFalse fun h => h
  | i :: is, d :: ds => @instDecidableAnd (i < d) (validIdx is ds) (Nat.decLt i d) (validIdxDec is ds)

@[simp]
theorem validIdx_nil : validIdx [] [] := trivial

@[simp]
theorem validIdx_cons {i d : Nat} {is ds : List Nat} :
    validIdx (i :: is) (d :: ds) ↔ i < d ∧ validIdx is ds := Iff.rfl

@[simp]
theorem validIdx_nil_cons {d : Nat} {ds : List Nat} : ¬ validIdx [] (d :: ds) := fun h => h

@[simp]
theorem validIdx_cons_nil {i : Nat} {is : List Nat} : ¬ validIdx (i :: is) [] := fun h => h

theorem validIdx.length : ∀ {idx s : List Nat}, validIdx idx s → idx.length = s.length
  | [], [], _ => rfl
  | _ :: _, _ :: _, h => by
    simpa using validIdx.length h.2

theorem flatten_lt : ∀ {s idx : List Nat}, validIdx idx s → flatten s idx < s.prod
  | [], [], _ => Nat.zero_lt_one
  | d :: ds, i :: is, h => by
    have ih := flatten_lt h.2
    have hp : 0 < ds.prod := Nat.pos_of_ne_zero fun hz => by omega
    calc flatten (d :: ds) (i :: is) = i * ds.prod + flatten ds is := rfl
      _ < i * ds.prod + ds.prod := by omega
      _ = (i + 1) * ds.prod := by ring
      _ ≤ d * ds.prod := Nat.mul_le_mul_right _ h.1
      _ = (d :: ds).prod := (List.prod_cons).symm

theorem unflatten_valid : ∀ {s : List Nat} {k : Nat}, k < s.prod → validIdx (unflatten s k) s
  | [], _, _ => trivial
  | d :: ds, k, hk => by
    have hk' : k < d * ds.prod := by simpa [List.prod_cons] using hk
    have hp : 0 < ds.prod := by
      rcases Nat.eq_zero_or_pos ds.prod with h0 | h0
      · rw [h0, Nat.mul_zero] at hk'; omega
      · exact h0
    refine ⟨?_, unflatten_valid (Nat.mod_lt _ hp)⟩
    exact (Nat.div_lt_iff_lt_mul hp).mpr (by omega)

theorem flatten_unflatten : ∀ {s : List Nat} {k : Nat}, k < s.prod →
    flatten s (unflatten s k) = k
  | [], k, hk => by
    have : k = 0 := by simpa using Nat.lt_one_iff.mp (by simpa using hk)
    simp [flatten, unflatten, this]
  | d :: ds, k, hk => by
    have hk' : k < d * ds.prod := by simpa [List.prod_cons] using hk
    have hp : 0 < ds.prod := by
      rcases Nat.eq_zero_or_pos ds.prod with h0 | h0
      · rw [h0, Nat.mul_zero] at hk'; omega
      · exact h0
    have ih := @flatten_unflatten ds (k % ds.prod) (Nat.mod_lt k hp)
    calc flatten (d :: ds) (unflatten (d :: ds) k)
        = k / ds.prod * ds.prod + flatten ds (unflatten ds (k % ds.prod)) := rfl
      _ = k / ds.prod * ds.prod + k % ds.prod := by rw [ih]
      _ = k := by rw [Nat.mul_comm]; exact Nat.div_add_mod k ds.prod

theorem unflatten_flatten : ∀ {s idx : List Nat}, validIdx idx s →
    unflatten s (flatten s idx) = idx
  | [], [], _ => rfl
  | d :: ds, i :: is, h => by
    have hf : flatten ds is < ds.prod := flatten_lt h.2
    have hp : 0 < ds.prod := by omega
    have hdiv : (i * ds.prod + flatten ds is) / ds.prod = i := by
      rw [Nat.mul_comm i ds.prod, Nat.mul_add_div hp]
      simp [Nat.div_eq_of_lt hf]
    have hmod : (i * ds.prod + flatten ds is) % ds.prod = flatten ds is := by
      rw [Nat.mul_comm i ds.prod, Nat.mul_add_mod, Nat.mod_eq_of_lt hf]
    show (i * ds.prod + flatten ds is) / ds.prod ::
        unflatten ds ((i * ds.prod + flatten ds is) % ds.prod) = i :: is
    rw [hdiv, hmod, unflatten_flatten h.2]

/-- The transposition of axis indices `i` and `j`. -/
def swapNat (i j t : Nat) : Nat :=
  if t = i then j else if t = j then i else t

/-- The list `l` with its entries at positions `i` and `j` exchanged
(entries at other positions unchanged).  Only used on shapes and
multi-indices, hence the `0` default. -/
def listSwap (l : List Nat) (i j : Nat) : List Nat :=
  (List.range l.length).map fun t => l.getD (swapNat i j t) 0

theorem swapNat_involutive (i j t : Nat) : swapNat i j (swapNat i j t) = t := by
  unfold swapNat
  split_ifs <;> omega

theorem swapNat_lt {n i j t : Nat} (hi : i < n) (hj : j < n) (ht : t < n) :
    swapNat i j t < n := by
  unfold swapNat
  split_ifs <;> omega

@[simp]
theorem length_listSwap (l : List Nat) (i j : Nat) : (listSwap l i j).length = l.length := by
  simp [listSwap]

theorem getD_range_map {α : Type} (f : Nat → α) (d : α) {n k : Nat} (hk : k < n) :
    ((List.range n).map f).getD k d = f k := by
  have hlen : k < ((List.range n).map f).length := by simpa using hk
  rw [List.getD_eq_getElem _ _ hlen, List.getElem_map, List.getElem_range]

theorem getD_listSwap {l : List Nat} {i j t : Nat} (ht : t < l.length) :
    (listSwap l i j).getD t 0 = l.getD (swapNat i j t) 0 :=
  getD_range_map _ _ ht

theorem range_map_getD {α : Type} (l : List α) (d : α) :
    (List.range l.length).map (fun t => l.getD t d) = l := by
  apply List.ext_getElem
  · simp
  intro n h1 h2
  rw [List.getElem_map, List.getElem_range, List.getD_eq_getElem _ _ h2]

theorem listSwap_involutive {l : List Nat} {i j : Nat} (hi : i < l.length)
    (hj : j < l.length) : listSwap (listSwap l i j) i j = l := by
  apply List.ext_getElem
  · simp
  intro n h1 h2
  have hn : n < l.length := by simpa using h2
  have h1' : n < (listSwap l i j).length := by simpa using hn
  rw [← List.getD_eq_getElem _ 0 h1, ← List.getD_eq_getElem _ 0 h2]
  rw [getD_listSwap (by simpa using hn)]
  rw [getD_listSwap (swapNat_lt hi hj hn)]
  rw [swapNat_involutive]

theorem list_prod_range_map (f : Nat → Nat) (n : Nat) :
    ((List.range n).map f).prod = ∏ t ∈ Finset.range n, f t := by
  induction n with
  | zero => simp
  | succ m ih => rw [List.range_succ, Finset.prod_range_succ, List.map_append, List.prod_append,
      ih, List.map_singleton, List.prod_singleton]

theorem prod_listSwap {l : List Nat} {i j : Nat} (hi : i < l.length) (hj : j < l.length) :
    (listSwap l i j).prod = l.prod := by
  conv_rhs => rw [← range_map_getD l 0]
  rw [listSwap, list_prod_range_map, list_prod_range_map]
  refine Finset.prod_nbij' (swapNat i j) (swapNat i j) ?_ ?_ ?_ ?_ ?_
  · intro t ht
    simp only [Finset.mem_range] at *
    exact swapNat_lt hi hj ht
  · intro t ht
    simp only [Finset.mem_range] at *
    exact swapNat_lt hi hj ht
  · intro t _
    exact swapNat_involutive i j t
  · intro t _
    exact swapNat_involutive i j t
  · intro t _
    rfl

theorem validIdx_getD : ∀ {idx s : List Nat}, validIdx idx s →
    ∀ {t : Nat}, t < s.length → idx.getD t 0 < s.getD t 0
  | [], [], _, _, ht => absurd ht (by simp)
  | [], _ :: _, h, _, _ => absurd h (by simp)
  | _ :: _, [], h, _, _ => absurd h (by simp)
  | _ :: _, _ :: _, h, 0, _ => h.1
  | _ :: is, _ :: ds, h, t + 1, ht => by
    simpa using validIdx_getD h.2 (by simpa using ht)

theorem validIdx_of_getD : ∀ {idx s : List Nat}, idx.length = s.length →
    (∀ t, t < s.length → idx.getD t 0 < s.getD t 0) → validIdx idx s
  | [], [], _, _ => trivial
  | i :: is, d :: ds, hlen, hall => by
    refine ⟨by simpa using hall 0 (by simp), ?_⟩
    refine validIdx_of_getD (by simpa using hlen) fun t ht => ?_
    simpa using hall (t + 1) (by simpa using ht)

theorem validIdx_listSwap {idx s : List Nat} {i j : Nat} (h : validIdx idx s)
    (hi : i < s.length) (hj : j < s.length) :
    validIdx (listSwap idx i j) (listSwap s i j) := by
  have hlen : idx.length = s.length := h.length
  refine validIdx_of_getD (by simp [hlen]) fun t ht => ?_
  have hts : t < s.length := by simpa using ht
  rw [getD_listSwap (by omega), getD_listSwap hts]
  exact validIdx_getD h (swapNat_lt hi hj hts)

/-! ## The host array model

A numpy `ndarray` / torch `Tensor` as used by `data.py`: numeric, row-major,
n-dimensional.  `data` is the flat row-major buffer, `dtype` and `device`
are abstract tags for the element type and the storage device (numpy arrays
always live on the host device, tag `0`). -/

/-- Host array: shape plus flat row-major contents, with backend, element
type and device tags. -/
structure NDArray where
  backend : Backend
  dtype : Nat
  device : Nat
  shape : List Nat
  data : List Int
  hdata : data.length = shape.prod

/-- The device tag of host memory; `np.zeros` always allocates there. -/
def hostDevice : Nat := 0

/-- Element of `a` at multi-index `idx` (row-major). -/
def NDArray.get (a : NDArray) (idx : List Nat) : Int :=
  a.data.getD (flatten a.shape idx) 0

theorem NDArray.eq_of_fields {a b : NDArray} (h1 : a.backend = b.backend)
    (h2 : a.dtype = b.dtype) (h3 : a.device = b.device) (h4 : a.shape = b.shape)
    (h5 : a.data = b.data) : a = b := by
  cases a; cases b; simp_all

/-- Model of `array.reshape(shape)` for a row-major numpy array (torch's `reshape`
agrees): succeeds when the element counts match, keeping the flat
row-major contents; otherwise raises `ValueError` (surfaced as the spec's
`InvalidShape`). -/
def NDArray.reshape (a : NDArray) (s : List Nat) : Except EqsError NDArray :=
  if h : s.prod = a.shape.prod then
    .ok ⟨a.backend, a.dtype, a.device, s, a.data, by rw [a.hdata, h]⟩
  else
    .error .invalidShape

/-- Model of `array.swapaxes(i, j)` (numpy) / `Tensor.swapaxes` (torch), materialised
in row-major order: the result's shape is the old shape with axes `i` and
`j` exchanged, and its element at multi-index `m` is the old element at `m`
with coordinates `i` and `j` exchanged.  Out-of-range axes raise
`numpy.exceptions.AxisError`. -/
def NDArray.swapaxes (a : NDArray) (i j : Nat) : Except EqsError NDArray :=
  if i < a.shape.length ∧ j < a.shape.length then
    .ok ⟨a.backend, a.dtype, a.device, listSwap a.shape i j,
      (List.range (listSwap a.shape i j).prod).map fun k =>
        a.data.getD (flatten a.shape (listSwap (unflatten (listSwap a.shape i j) k) i j)) 0,
      by simp⟩
  else
    .error .axisOutOfRange

/-- Model of `np.zeros(shape, dtype=dtype)` / `torch.zeros(shape, dtype=dtype,
device=device)`. -/
def ndZeros (backend : Backend) (dtype device : Nat) (shape : List Nat) : NDArray :=
  ⟨backend, dtype, device, shape, List.replicate shape.prod 0, by simp⟩

/-- Model of `array.copy()` (numpy) / `array.clone()` (torch): a deep copy, equal in
shape, contents, element type and device, with freshly allocated backing
storage. -/
def NDArray.copy (a : NDArray) : NDArray := a

theorem NDArray.get_swapaxes {a a' : NDArray} {i j : Nat} (hi : i < a.shape.length)
    (hj : j < a.shape.length) (hok : a.swapaxes i j = .ok a') {m : List Nat}
    (hm : validIdx m a'.shape) : a'.get m = a.get (listSwap m i j) := by
  rw [NDArray.swapaxes, if_pos ⟨hi, hj⟩] at hok
  cases hok
  have hflt : flatten (listSwap a.shape i j) m < (listSwap a.shape i j).prod :=
    flatten_lt hm
  show ((List.range (listSwap a.shape i j).prod).map fun k =>
      a.data.getD (flatten a.shape (listSwap (unflatten (listSwap a.shape i j) k) i j)) 0).getD
      (flatten (listSwap a.shape i j) m) 0 = a.get (listSwap m i j)
  rw [getD_range_map _ _ hflt, unflatten_flatten hm]
  rfl

theorem NDArray.shape_swapaxes {a a' : NDArray} {i j : Nat}
    (hok : a.swapaxes i j = .ok a') : a'.shape = listSwap a.shape i j := by
  rw [NDArray.swapaxes] at hok
  split at hok
  · cases hok; rfl
  · cases hok

/-- Applying `swapaxes(i, j)` twice with in-range axes restores the array
exactly: shape, contents and tags. -/
theorem NDArray.swapaxes_swapaxes {a a' a'' : NDArray} {i j : Nat}
    (hi : i < a.shape.length) (hj : j < a.shape.length)
    (h1 : a.swapaxes i j = .ok a') (h2 : a'.swapaxes i j = .ok a'') : a'' = a := by
  have hs' : a'.shape = listSwap a.shape i j := NDArray.shape_swapaxes h1
  have hlen' : a'.shape.length = a.shape.length := by rw [hs']; simp
  have hi' : i < a'.shape.length := by omega
  have hj' : j < a'.shape.length := by omega
  have hs'' : a''.shape = a.shape := by
    rw [NDArray.shape_swapaxes h2, hs', listSwap_involutive hi hj]
  have hback : a''.backend = a.backend := by
    rw [NDArray.swapaxes, if_pos ⟨hi', hj'⟩] at h2
    rw [NDArray.swapaxes, if_pos ⟨hi, hj⟩] at h1
    cases h1; cases h2; rfl
  have hdt : a''.dtype = a.dtype := by
    rw [NDArray.swapaxes, if_pos ⟨hi', hj'⟩] at h2
    rw [NDArray.swapaxes, if_pos ⟨hi, hj⟩] at h1
    cases h1; cases h2; rfl
  have hdev : a''.device = a.device := by
    rw [NDArray.swapaxes, if_pos ⟨hi', hj'⟩] at h2
    rw [NDArray.swapaxes, if_pos ⟨hi, hj⟩] at h1
    cases h1; cases h2; rfl
  refine NDArray.eq_of_fields hback hdt hdev hs'' ?_
  have hget : ∀ m : List Nat, validIdx m a.shape → a''.get m = a.get m := by
    intro m hm
    have hm' : validIdx (listSwap m i j) a'.shape := by
      rw [hs']
      exact validIdx_listSwap hm hi hj
    rw [NDArray.get_swapaxes hi' hj' h2 (by rwa [hs''])]
    rw [NDArray.get_swapaxes hi hj h1 hm']
    congr 1
    have hlenm : m.length = a.shape.length := hm.length
    rw [listSwap_involutive (by omega) (by omega)]
  have hlen2 : a''.data.length = a.data.length := by
    rw [a.hdata, a''.hdata, hs'']
  apply List.ext_getElem hlen2
  intro k h1k h2k
  have hk : k < a.shape.prod := by rw [← a.hdata]; exact h2k
  have hvk : validIdx (unflatten a.shape k) a.shape := unflatten_valid hk
  have := hget (unflatten a.shape k) hvk
  rw [NDArray.get, NDArray.get, hs'', flatten_unflatten hk] at this
  rw [← List.getD_eq_getElem _ 0 h1k, ← List.getD_eq_getElem _ 0 h2k]
  exact this

/-! ## The sample-move assignment

`_eqs_array_move_samples_from` executes the single numpy statement
`output[output_samples, ..., slice(p0, p1)] = input[input_samples, ..., :]`.
The right-hand side is built by advanced indexing — a fresh array, so the
assignment always reads pre-state values — and has shape
`(len pairs, input dims 1..)`; the addressed slot has shape
`(len pairs, output middle dims, slice width)`.  numpy broadcasts the
right-hand side into the slot: the two shapes are aligned from the right,
each aligned pair of extents must be equal or the source extent must be 1
(a size-1 source axis is stretched, always contributing index 0), missing
leading source axes behave as size 1, and extra leading source axes are
accepted only when they have size 1; any other combination raises
`ValueError`.  Slot positions are written in index order, so a destination
row that appears several times in `output_samples` keeps the values of its
last occurrence. -/

/-- Number of last-axis positions addressed by the basic slice `p0:p1` on an
axis of extent `L` (Python slices clamp to the extent). -/
def sliceWidth (p0 p1 L : Nat) : Nat := min p1 L - min p0 L

/-- Broadcast compatibility on right-aligned (hence reversed) shapes: each
source extent must equal the target extent or be 1; a source exhausted
early is padded with implicit 1s; extra source axes beyond the target must
have extent 1. -/
def bcastRev : (valueRev slotRev : List Nat) → Bool
  | [], _ => true
  | r :: rs, w :: ws => (r == w || r == 1) && bcastRev rs ws
  | r :: rs, [] => (r == 1) && bcastRev rs []

/-- numpy's compatibility check for assigning a value of shape `value` into
a slot of shape `slot`. -/
def broadcastsTo (value slot : List Nat) : Bool := bcastRev value.reverse slot.reverse

/-- Right-aligned broadcast indexing (on reversed lists): the source index
corresponding to a slot index — a size-1 source axis always contributes
index 0, every other axis takes the slot coordinate. -/
def bIdxRev : (valueRev slotIdxRev : List Nat) → List Nat
  | [], _ => []
  | r :: rs, w :: ws => (if r = 1 then 0 else w) :: bIdxRev rs ws
  | _ :: rs, [] => 0 :: bIdxRev rs []

/-- The index of the broadcast source (of shape `value`) read when writing
slot position `slotIdx`. -/
def bIdx (value slotIdx : List Nat) : List Nat :=
  (bIdxRev value.reverse slotIdx.reverse).reverse

/-- The value the right-hand side `input[input_samples, ..., :]` — of shape
`inRows.length :: input.shape.tail` — contributes at slot position
`slotIdx = t :: middle ++ [w]` after broadcasting: its axis 0 indexes
`input_samples`, its remaining axes index `input` directly. -/
def bcastVal (input : NDArray) (inRows : List Nat) (slotIdx : List Nat) : Int :=
  let v := bIdx (inRows.length :: input.shape.tail) slotIdx
  input.get (inRows.getD (v.headD 0) 0 :: v.tail)

/-- The last position of `r` in `l` (`none` when absent): with duplicated
destination rows the slot positions are written in order, so the last
occurrence wins. -/
def lastIdxOf : List Nat → Nat → Option Nat
  | [], _ => none
  | x :: xs, r =>
    match lastIdxOf xs r with
    | some t => some (t + 1)
    | none => if x = r then some 0 else none

/-- The effect of the numpy assignment on the destination buffer: position
`r :: mid ++ [q]` is overwritten when `r` occurs in `output_samples` (its
last occurrence `t` selecting the slot row) and `q` lies in the clamped
slice, `p0 ≤ q < min p1 L`; the new value is the broadcast right-hand side
at slot position `(t, mid, q - p0)`.  Every other position keeps its value,
and the shape and tags are untouched. -/
def assignSlot (output input : NDArray) (inRows outRows : List Nat) (p0 p1 : Nat) : NDArray :=
  ⟨output.backend, output.dtype, output.device, output.shape,
    (List.range output.shape.prod).map fun k =>
      let u := unflatten output.shape k
      let q := u.getLastD 0
      match lastIdxOf outRows (u.headD 0) with
      | none => output.data.getD k 0
      | some t =>
        if p0 ≤ q ∧ q < min p1 (output.shape.getLastD 0) then
          bcastVal input inRows (t :: (u.tail.dropLast ++ [q - p0]))
        else output.data.getD k 0,
    by simp⟩

/-- The numpy statement `output[output_samples, ..., slice(p0, p1)] =
input[input_samples, ..., :]` from `_eqs_array_move_samples_from`, with
`pairs` the list of `eqs_sample_mapping_t` entries (`.1` = `input` row,
`.2` = `output` row).  Both arrays must be indexable by
(row, ..., last-axis slice) — rank at least 2, otherwise `IndexError: too
many indices` — every row index must lie within the first axis
(`IndexError`), and the right-hand side, of shape
`(len pairs) :: input.shape.tail`, must broadcast into the slot, of shape
`(len pairs) :: output middle dims ++ [slice width]` (`ValueError`
otherwise); on any failure `output` is unmodified. -/
def moveSamplesArr (output input : NDArray) (pairs : List (Nat × Nat)) (p0 p1 : Nat) :
    Except EqsError NDArray :=
  if ¬ (2 ≤ output.shape.length ∧ 2 ≤ input.shape.length) then .error .indexOutOfBounds
  else if ¬ (∀ pr ∈ pairs, pr.1 < input.shape.headD 0) then .error .indexOutOfBounds
  else if ¬ (∀ pr ∈ pairs, pr.2 < output.shape.headD 0) then .error .indexOutOfBounds
  else if broadcastsTo (pairs.length :: input.shape.tail)
      (pairs.length :: (output.shape.tail.dropLast ++
        [sliceWidth p0 p1 (output.shape.getLastD 0)])) then
    .ok (assignSlot output input (pairs.map Prod.fst) (pairs.map Prod.snd) p0 p1)
  else .error .broadcastMismatch

theorem getLastD_of_ne_nil {α : Type} {l : List α} (h : l ≠ []) (d d' : α) :
    l.getLastD d = l.getLastD d' := by
  cases l with
  | nil => exact absurd rfl h
  | cons a l => rw [List.getLastD_cons, List.getLastD_cons]

theorem validIdx_concat : ∀ {mid t : List Nat} {q : Nat}, t ≠ [] →
    (validIdx (mid ++ [q]) t ↔ validIdx mid t.dropLast ∧ q < t.getLastD 0)
  | [], [], _, ht => absurd rfl ht
  | [], [d], q, _ => by simp
  | [], d :: d' :: t', q, _ => by simp [List.dropLast_cons_of_ne_nil]
  | m :: mid', [], _, ht => absurd rfl ht
  | m :: mid', [d], q, _ => by
    cases mid' <;> simp
  | m :: mid', d :: d' :: t', q, _ => by
    have ih := @validIdx_concat mid' (d' :: t') q (by simp)
    rw [List.dropLast_cons_of_ne_nil (by simp), List.getLastD_cons,
      getLastD_of_ne_nil (by simp : d' :: t' ≠ []) d 0]
    show m < d ∧ validIdx (mid' ++ [q]) (d' :: t') ↔
      (m < d ∧ validIdx mid' (d' :: t').dropLast) ∧ q < (d' :: t').getLastD 0
    rw [ih]
    tauto

theorem validIdx_decomp {s : List Nat} (hs : 2 ≤ s.length) {r q : Nat} {mid : List Nat} :
    validIdx (r :: (mid ++ [q])) s ↔
      r < s.headD 0 ∧ validIdx mid s.tail.dropLast ∧ q < s.tail.getLastD 0 := by
  cases s with
  | nil => simp at hs
  | cons d t =>
    have ht : t ≠ [] := by
      intro h
      rw [h] at hs
      simp at hs
    rw [List.headD_cons, List.tail_cons]
    show r < d ∧ validIdx (mid ++ [q]) t ↔ _
    rw [validIdx_concat ht]

theorem shape_getLastD_tail {s : List Nat} (hs : 2 ≤ s.length) (d : Nat) :
    s.tail.getLastD d = s.getLastD d := by
  cases s with
  | nil => simp at hs
  | cons a t =>
    have ht : t ≠ [] := by
      intro h
      rw [h] at hs
      simp at hs
    rw [List.tail_cons, List.getLastD_cons, getLastD_of_ne_nil ht a d]

@[simp]
theorem assignSlot_shape (output input : NDArray) (inRows outRows : List Nat) (p0 p1 : Nat) :
    (assignSlot output input inRows outRows p0 p1).shape = output.shape := rfl

/-- Positions in rows that never occur in `output_samples` are untouched by
the assignment. -/
theorem assignSlot_get_none {output input : NDArray} {inRows outRows : List Nat}
    {p0 p1 r q : Nat} {mid : List Nat} (hv : validIdx (r :: (mid ++ [q])) output.shape)
    (hnone : lastIdxOf outRows r = none) :
    (assignSlot output input inRows outRows p0 p1).get (r :: (mid ++ [q])) =
      output.get (r :: (mid ++ [q])) := by
  have hfl : flatten output.shape (r :: (mid ++ [q])) < output.shape.prod := flatten_lt hv
  show ((List.range output.shape.prod).map _).getD
    (flatten output.shape (r :: (mid ++ [q]))) 0 = _
  rw [getD_range_map _ _ hfl]
  simp only [unflatten_flatten hv, List.headD_cons, List.tail_cons, List.dropLast_concat,
    List.getLastD_cons, List.getLastD_concat, hnone]
  rfl

/-- Positions with a last-axis coordinate outside the clamped slice are
untouched by the assignment, addressed row or not. -/
theorem assignSlot_get_outside {output input : NDArray} {inRows outRows : List Nat}
    {p0 p1 r q t : Nat} {mid : List Nat} (hv : validIdx (r :: (mid ++ [q])) output.shape)
    (hsome : lastIdxOf outRows r = some t)
    (hq : ¬ (p0 ≤ q ∧ q < min p1 (output.shape.getLastD 0))) :
    (assignSlot output input inRows outRows p0 p1).get (r :: (mid ++ [q])) =
      output.get (r :: (mid ++ [q])) := by
  have hfl : flatten output.shape (r :: (mid ++ [q])) < output.shape.prod := flatten_lt hv
  show ((List.range output.shape.prod).map _).getD
    (flatten output.shape (r :: (mid ++ [q]))) 0 = _
  rw [getD_range_map _ _ hfl]
  simp only [unflatten_flatten hv, List.headD_cons, List.tail_cons, List.dropLast_concat,
    List.getLastD_cons, List.getLastD_concat, hsome, if_neg hq]
  rfl

/-- Positions of an addressed row inside the clamped slice receive the
broadcast right-hand side, selected by the row's last occurrence among the
destination rows. -/
theorem assignSlot_get_inside {output input : NDArray} {inRows outRows : List Nat}
    {p0 p1 r q t : Nat} {mid : List Nat} (hv : validIdx (r :: (mid ++ [q])) output.shape)
    (hsome : lastIdxOf outRows r = some t)
    (hq : p0 ≤ q ∧ q < min p1 (output.shape.getLastD 0)) :
    (assignSlot output input inRows outRows p0 p1).get (r :: (mid ++ [q])) =
      bcastVal input inRows (t :: (mid ++ [q - p0])) := by
  have hfl : flatten output.shape (r :: (mid ++ [q])) < output.shape.prod := flatten_lt hv
  show ((List.range output.shape.prod).map _).getD
    (flatten output.shape (r :: (mid ++ [q]))) 0 = _
  rw [getD_range_map _ _ hfl]
  simp only [unflatten_flatten hv, List.headD_cons, List.tail_cons, List.dropLast_concat,
    List.getLastD_cons, List.getLastD_concat, hsome, if_pos hq]

/-! ## The origin registry and the Python origin caches

`eqs_register_data_origin` lives in the native core, which is not among the
provided sources; it is modelled from the spec.  `_numpy_origin` and
`_torch_origin` are the Python-side lazily-initialised caches from
`data.py`. -/

/-- Modelled from the spec: the native core's `eqs_register_data_origin`
(the Origin Registry), whose implementation is not part of the provided
sources.  Per spec §4.1 the registry is an append-only process-wide table:
registering a name already present returns its existing id, a new name is
appended and receives the next fresh id.  Ids are small positive integers,
here `index + 1`. -/
def eqs_register_data_origin (reg : List String) (name : String) : List String × Nat :=
  match reg.findIdx? (· == name) with
  | some i => (reg, i + 1)
  | none => (reg ++ [name], reg.length + 1)

/-- The registry plus the module globals `_NUMPY_STORAGE_ORIGIN` and
`_TORCH_STORAGE_ORIGIN` of `data.py` (both `None` at import time). -/
structure OriginState where
  registry : List String
  numpyOrigin : Option Nat
  torchOrigin : Option Nat

/-- Model of `_numpy_origin()`: returns the cached id if the global is set, otherwise
registers `"equistore.data.numpy"` with the core and caches the result. -/
def numpy_origin (st : OriginState) : OriginState × Nat :=
  match st.numpyOrigin with
  | some v => (st, v)
  | none =>
    let r := eqs_register_data_origin st.registry "equistore.data.numpy"
    (⟨r.1, some r.2, st.torchOrigin⟩, r.2)

/-- Model of `_torch_origin()`: same as `_numpy_origin` for the torch backend. -/
def torch_origin (st : OriginState) : OriginState × Nat :=
  match st.torchOrigin with
  | some v => (st, v)
  | none =>
    let r := eqs_register_data_origin st.registry "equistore.data.torch"
    (⟨r.1, st.numpyOrigin, some r.2⟩, r.2)

/-! ## `ArrayWrapper` and the heap of live wrappers

The Python `ArrayWrapper.__init__` stores the array, caches its shape in a
ctypes array (`self._shape`) and captures the backend's origin id in the
`eqs_array_origin` closure.  The `_children` list is bookkeeping that only
keeps child wrappers alive for the garbage collector; it is never read, so
it is not modelled.  Each live Python wrapper object becomes one cell of a
heap (a list indexed by handle), mirroring the `this` pointers handed to
the callbacks. -/

/-- One live `ArrayWrapper` object: `array` is `self.array` (set to `None`
by `_eqs_array_destroy`), `shapeCache` is `self._shape`, `origin` is the
`array_origin` id captured at construction. -/
structure ArrayWrapper where
  array : Option NDArray
  shapeCache : List Nat
  origin : Nat

/-- Model of `ArrayWrapper.__init__`: wraps `a`, caching `a.shape` and the origin id
of `a`'s backend.  `ids` is the map from backend to its registered origin
id (the values of the `_numpy_origin()` / `_torch_origin()` caches at the
time of construction). -/
def mkWrapper (ids : Backend → Nat) (a : NDArray) : ArrayWrapper :=
  ⟨some a, a.shape, ids a.backend⟩

/-- The collection of live wrapper objects, indexed by handle. -/
abbrev Heap := List ArrayWrapper

/-- Device on which `_eqs_array_create` allocates the child array:
`np.zeros` always allocates in host memory, `torch.zeros` is given
`device=storage.array.device`. -/
def newDevice (a : NDArray) : Nat :=
  match a.backend with
  | .numpy => hostDevice
  | .torch => a.device

/-- Model of `_eqs_array_shape`: writes `storage._shape` (the cached shape) out;
it does not consult the underlying array. -/
def eqs_array_shape (H : Heap) (h : Nat) : Except EqsError (List Nat) :=
  match H[h]? with
  | some w => .ok w.shapeCache
  | none => .error .invalidHandle

/-- Model of `_eqs_array_reshape`: `storage.array = storage.array.reshape(shape)`
then `storage._shape = shape`.  A `ValueError` from numpy (count mismatch)
escapes before either assignment, so the wrapper is untouched on failure;
a destroyed wrapper (`storage.array is None`) raises `AttributeError`. -/
def eqs_array_reshape (H : Heap) (h : Nat) (s : List Nat) : Option EqsError × Heap :=
  match H[h]? with
  | none => (some .invalidHandle, H)
  | some w =>
    match w.array with
    | none => (some .pyError, H)
    | some a =>
      match a.reshape s with
      | .error e => (some e, H)
      | .ok a' => (none, H.set h ⟨some a', s, w.origin⟩)

/-- Model of `_eqs_array_swap_axes`: `storage.array = storage.array.swapaxes(axis_1,
axis_2)` then `storage._shape = storage.array.shape`. -/
def eqs_array_swap_axes (H : Heap) (h : Nat) (i j : Nat) : Option EqsError × Heap :=
  match H[h]? with
  | none => (some .invalidHandle, H)
  | some w =>
    match w.array with
    | none => (some .pyError, H)
    | some a =>
      match a.swapaxes i j with
      | .error e => (some e, H)
      | .ok a' => (none, H.set h ⟨some a', a'.shape, w.origin⟩)

/-- Model of `_eqs_array_create`: allocates a zero-filled array with the parent's
dtype (and, for torch, the parent's device), wraps it in a fresh
`ArrayWrapper` and hands it out; the child is appended to the heap, its
handle is the old heap length.  (The parent also appends the child to
`self._children`, which is unmodelled keep-alive bookkeeping.) -/
def eqs_array_create (ids : Backend → Nat) (H : Heap) (h : Nat) (s : List Nat) :
    Option EqsError × Heap :=
  match H[h]? with
  | none => (some .invalidHandle, H)
  | some w =>
    match w.array with
    | none => (some .pyError, H)
    | some a => (none, H ++ [mkWrapper ids (ndZeros a.backend a.dtype (newDevice a) s)])

/-- Model of `_eqs_array_copy`: deep-copies the wrapped array
(`storage.array.copy()` / `.clone()`) and wraps the copy in a fresh
`ArrayWrapper`, appended to the heap. -/
def eqs_array_copy (ids : Backend → Nat) (H : Heap) (h : Nat) : Option EqsError × Heap :=
  match H[h]? with
  | none => (some .invalidHandle, H)
  | some w =>
    match w.array with
    | none => (some .pyError, H)
    | some a => (none, H ++ [mkWrapper ids a.copy])

/-- Model of `_eqs_array_destroy`: `storage.array = None`; the cached shape, origin
closure and children are left as they are. -/
def eqs_array_destroy (H : Heap) (h : Nat) : Option EqsError × Heap :=
  match H[h]? with
  | none => (some .invalidHandle, H)
  | some w => (none, H.set h ⟨none, w.shapeCache, w.origin⟩)

/-- Model of `_eqs_array_move_samples_from`: reads both wrapped arrays and performs
the fancy assignment (`moveSamplesArr`); on success only the destination
wrapper's array changes (its `_shape` cache is not touched — the assignment
cannot change the shape). -/
def eqs_array_move_samples_from (H : Heap) (dstH srcH : Nat) (pairs : List (Nat × Nat))
    (p0 p1 : Nat) : Option EqsError × Heap :=
  match H[dstH]?, H[srcH]? with
  | some wd, some ws =>
    match wd.array, ws.array with
    | some d, some s =>
      match moveSamplesArr d s pairs p0 p1 with
      | .ok d' => (none, H.set dstH ⟨some d', wd.shapeCache, wd.origin⟩)
      | .error e => (some e, H)
    | _, _ => (some .pyError, H)
  | _, _ => (some .invalidHandle, H)

/-- Modelled from the spec: the native core's entry point for
`move_samples_from` (not part of the provided sources) first compares the
two records' origins — obtained through their `origin` callbacks, which
return the id captured at construction — and rejects mismatched origins
with `OriginMismatch` before invoking the destination's callback (spec
§4.3 and §7); nothing is modified in that case. -/
def eqs_move_samples_from (H : Heap) (dstH srcH : Nat) (pairs : List (Nat × Nat))
    (p0 p1 : Nat) : Option EqsError × Heap :=
  match H[dstH]?, H[srcH]? with
  | some wd, some ws =>
    if wd.origin = ws.origin then eqs_array_move_samples_from H dstH srcH pairs p0 p1
    else (some .originMismatch, H)
  | _, _ => (some .invalidHandle, H)

/-! ## Behaviour of the sample-move assignment -/

@[simp]
theorem lastIdxOf_nil (r : Nat) : lastIdxOf [] r = none := rfl

theorem lastIdxOf_cons_of_none {xs : List Nat} {x r : Nat} (h : lastIdxOf xs r = none) :
    lastIdxOf (x :: xs) r = if x = r then some 0 else none := by
  unfold lastIdxOf
  rw [h]

theorem lastIdxOf_cons_of_some {xs : List Nat} {x r t : Nat} (h : lastIdxOf xs r = some t) :
    lastIdxOf (x :: xs) r = some (t + 1) := by
  unfold lastIdxOf
  rw [h]

theorem lastIdxOf_eq_none : ∀ {l : List Nat} {r : Nat}, (∀ x ∈ l, x ≠ r) →
    lastIdxOf l r = none
  | [], _, _ => rfl
  | x :: xs, r, h => by
    have ih := @lastIdxOf_eq_none xs r fun y hy => h y (List.mem_cons_of_mem _ hy)
    rw [lastIdxOf_cons_of_none ih]
    exact if_neg (h x (List.mem_cons_self _ _))

theorem lastIdxOf_lt_length : ∀ {l : List Nat} {r t : Nat}, lastIdxOf l r = some t →
    t < l.length
  | [], _, _, h => by cases h
  | x :: xs, r, t, h => by
    rcases hx : lastIdxOf xs r with _ | t'
    · rw [lastIdxOf_cons_of_none hx] at h
      split_ifs at h
      · cases h
        simp
    · rw [lastIdxOf_cons_of_some hx] at h
      cases h
      have := @lastIdxOf_lt_length xs r t' hx
      simp only [List.length_cons]
      omega

/-- With pairwise-distinct destination rows, the last occurrence of a
pair's destination row among `output_samples` is that pair's own position,
and the matching entry of `input_samples` is the pair's source row. -/
theorem lastIdxOf_map_snd : ∀ {pairs : List (Nat × Nat)} {sr dr : Nat},
    (sr, dr) ∈ pairs → (pairs.map Prod.snd).Nodup →
    ∃ t, lastIdxOf (pairs.map Prod.snd) dr = some t ∧
      (pairs.map Prod.fst).getD t 0 = sr ∧ t < pairs.length
  | [], _, _, hmem, _ => absurd hmem (List.not_mem_nil _)
  | pr :: rest, sr, dr, hmem, hnd => by
    rw [List.map_cons, List.nodup_cons] at hnd
    rcases List.mem_cons.mp hmem with heq | hmem'
    · have hpr2 : pr.2 = dr := by rw [← heq]
      have hpr1 : pr.1 = sr := by rw [← heq]
      have hnone : lastIdxOf (rest.map Prod.snd) dr = none := by
        apply lastIdxOf_eq_none
        intro x hx hxr
        rw [hxr, ← hpr2] at hx
        exact hnd.1 hx
      refine ⟨0, ?_, by simpa using hpr1, by simp⟩
      rw [List.map_cons, lastIdxOf_cons_of_none hnone, if_pos hpr2]
    · obtain ⟨t, h1, h2, h3⟩ := lastIdxOf_map_snd hmem' hnd.2
      refine ⟨t + 1, ?_, ?_, by simp only [List.length_cons]; omega⟩
      · rw [List.map_cons, lastIdxOf_cons_of_some h1]
      · rw [List.map_cons]
        simpa using h2

theorem validIdx_append : ∀ {a b c d : List Nat}, validIdx a b → validIdx c d →
    validIdx (a ++ c) (b ++ d)
  | [], [], _, _, _, h2 => h2
  | _ :: _, _ :: _, _, _, h1, h2 => ⟨h1.1, validIdx_append h1.2 h2⟩
  | [], _ :: _, _, _, h1, _ => absurd h1 (by simp)
  | _ :: _, [], _, _, h1, _ => absurd h1 (by simp)

theorem validIdx_reverse : ∀ {u s : List Nat}, validIdx u s →
    validIdx u.reverse s.reverse
  | [], [], _ => trivial
  | i :: is, d :: ds, h => by
    rw [List.reverse_cons, List.reverse_cons]
    exact validIdx_append (validIdx_reverse h.2) (by simp [h.1])
  | [], _ :: _, h => absurd h (by simp)
  | _ :: _, [], h => absurd h (by simp)

theorem bIdxRev_self : ∀ {rs ws : List Nat}, validIdx ws rs → bIdxRev rs ws = ws
  | [], [], _ => rfl
  | r :: rs, w :: ws, h => by
    show (if r = 1 then 0 else w) :: bIdxRev rs ws = w :: ws
    rw [bIdxRev_self h.2]
    by_cases h1 : r = 1
    · have hw : w = 0 := by
        have := h.1
        omega
      rw [if_pos h1, hw]
    · rw [if_neg h1]
  | [], _ :: _, h => absurd h (by simp)
  | _ :: _, [], h => absurd h (by simp)

/-- Broadcasting is the identity where the slot index is valid for the
value's own shape (in particular whenever the two shapes coincide). -/
theorem bIdx_self {u R : List Nat} (h : validIdx u R) : bIdx R u = u := by
  unfold bIdx
  rw [bIdxRev_self (validIdx_reverse h), List.reverse_reverse]

theorem bcastRev_self : ∀ l : List Nat, bcastRev l l = true
  | [] => rfl
  | x :: xs => by
    have ih := bcastRev_self xs
    simp [bcastRev, ih]

theorem broadcastsTo_self (l : List Nat) : broadcastsTo l l = true := bcastRev_self _

theorem dropLast_append_getLastD {l : List Nat} (h : l ≠ []) (d : Nat) :
    l.dropLast ++ [l.getLastD d] = l := by
  have hlast : l.getLastD d = l.getLast h := by
    rw [List.getLastD_eq_getLast?, List.getLast?_eq_getLast l h]
    rfl
  rw [hlast, List.dropLast_append_getLast h]

/-- Inversion of a successful `moveSamplesArr`: the checks passed and the
result is the broadcast assignment. -/
theorem moveSamplesArr_ok_inv {output input : NDArray} {pairs : List (Nat × Nat)}
    {p0 p1 : Nat} {out' : NDArray}
    (h : moveSamplesArr output input pairs p0 p1 = .ok out') :
    out' = assignSlot output input (pairs.map Prod.fst) (pairs.map Prod.snd) p0 p1 := by
  unfold moveSamplesArr at h
  split at h
  · cases h
  split at h
  · cases h
  split at h
  · cases h
  split at h
  · cases h
    rfl
  · cases h

/-- A successful `moveSamplesArr` under the exact-fit hypotheses (the
right-hand side's shape equals the slot's, the case the bridge's contract
prescribes). -/
theorem moveSamplesArr_eq_ok {output input : NDArray} {pairs : List (Nat × Nat)} {p0 p1 : Nat}
    (h1 : 2 ≤ output.shape.length) (h2 : 2 ≤ input.shape.length)
    (h3 : ∀ pr ∈ pairs, pr.1 < input.shape.headD 0)
    (h4 : ∀ pr ∈ pairs, pr.2 < output.shape.headD 0)
    (h5 : input.shape.tail.dropLast = output.shape.tail.dropLast)
    (h6 : input.shape.getLastD 0 = sliceWidth p0 p1 (output.shape.getLastD 0)) :
    moveSamplesArr output input pairs p0 p1 =
      .ok (assignSlot output input (pairs.map Prod.fst) (pairs.map Prod.snd) p0 p1) := by
  have htail : input.shape.tail ≠ [] := by
    intro hnil
    have := congrArg List.length hnil
    rw [List.length_tail] at this
    simp only [List.length_nil] at this
    omega
  have hshape : input.shape.tail =
      output.shape.tail.dropLast ++ [sliceWidth p0 p1 (output.shape.getLastD 0)] := by
    conv_lhs => rw [← dropLast_append_getLastD htail 0]
    rw [h5, shape_getLastD_tail h2, h6]
  unfold moveSamplesArr
  rw [if_neg (not_not_intro ⟨h1, h2⟩), if_neg (not_not_intro h3),
    if_neg (not_not_intro h4), if_pos (by rw [hshape]; exact broadcastsTo_self _)]

/-- The value an addressed destination position receives under the
exact-fit hypotheses: the paired source row's full last axis, shifted to
start at `property_start`. -/
theorem assignSlot_get_addressed {output input : NDArray} {pairs : List (Nat × Nat)}
    {p0 p1 sr dr q : Nat} {mid : List Nat}
    (h2 : 2 ≤ input.shape.length)
    (hmem : (sr, dr) ∈ pairs) (hnd : (pairs.map Prod.snd).Nodup)
    (hv : validIdx (dr :: (mid ++ [q])) output.shape)
    (hmid : input.shape.tail.dropLast = output.shape.tail.dropLast)
    (hlast : input.shape.getLastD 0 = p1 - p0)
    (hq0 : p0 ≤ q) (hq1 : q < p1) :
    (assignSlot output input (pairs.map Prod.fst) (pairs.map Prod.snd) p0 p1).get
        (dr :: (mid ++ [q])) = input.get (sr :: (mid ++ [q - p0])) := by
  obtain ⟨t, hlio, hfst, htlt⟩ := lastIdxOf_map_snd hmem hnd
  have hrank : 2 ≤ output.shape.length := by
    have hl := hv.length
    simp only [List.length_cons, List.length_append, List.length_singleton] at hl
    omega
  have hqL : q < output.shape.getLastD 0 := by
    rw [← shape_getLastD_tail hrank]
    exact ((validIdx_decomp hrank).mp hv).2.2
  have htail : input.shape.tail ≠ [] := by
    intro hnil
    have := congrArg List.length hnil
    rw [List.length_tail] at this
    simp only [List.length_nil] at this
    omega
  rw [assignSlot_get_inside hv hlio ⟨hq0, lt_min hq1 hqL⟩]
  have hvslot : validIdx (t :: (mid ++ [q - p0]))
      ((pairs.map Prod.fst).length :: input.shape.tail) := by
    refine ⟨by simpa using htlt, ?_⟩
    rw [validIdx_concat htail]
    refine ⟨by rw [hmid]; exact ((validIdx_decomp hrank).mp hv).2.1, ?_⟩
    rw [shape_getLastD_tail h2, hlast]
    omega
  unfold bcastVal
  rw [bIdx_self hvslot]
  simp only [List.headD_cons, List.tail_cons]
  rw [hfst]

/-! ## Generic facts about the heap operations -/

theorem lt_length_of_getElem?_eq_some {α : Type} {l : List α} {n : Nat} {a : α}
    (h : l[n]? = some a) : n < l.length := by
  by_contra hn
  rw [List.getElem?_eq_none (by omega)] at h
  cases h

theorem getElem?_set_of_ne {α : Type} {l : List α} {h g : Nat} {w : α} (hg : g ≠ h) :
    (l.set h w)[g]? = l[g]? :=
  List.getElem?_set_ne fun he => hg he.symm

/-- Every element of a zero-filled array is zero. -/
theorem ndZeros_get (b : Backend) (dt dev : Nat) (s : List Nat) (idx : List Nat) :
    (ndZeros b dt dev s).get idx = 0 := by
  unfold ndZeros NDArray.get
  rcases lt_or_ge (flatten s idx) (List.replicate s.prod (0 : Int)).length with hlt | hge
  · rw [List.getD_eq_getElem _ _ hlt, List.getElem_replicate]
  · rw [List.getD_eq_getElem?_getD, List.getElem?_eq_none hge]
    rfl

/-- Frame fact: `_eqs_array_reshape` never touches any cell other than the addressed
one. -/
theorem eqs_array_reshape_frame (H : Heap) (h : Nat) (s : List Nat) {g : Nat} (hg : g ≠ h) :
    ((eqs_array_reshape H h s).2)[g]? = H[g]? := by
  unfold eqs_array_reshape
  repeat' split
  all_goals first | rfl | exact getElem?_set_of_ne hg

/-- Frame fact: `_eqs_array_swap_axes` never touches any cell other than the addressed
one. -/
theorem eqs_array_swap_axes_frame (H : Heap) (h i j : Nat) {g : Nat} (hg : g ≠ h) :
    ((eqs_array_swap_axes H h i j).2)[g]? = H[g]? := by
  unfold eqs_array_swap_axes
  repeat' split
  all_goals first | rfl | exact getElem?_set_of_ne hg

/-- Frame fact: `_eqs_array_move_samples_from` never touches any cell other than the
destination. -/
theorem eqs_array_move_frame (H : Heap) (dstH srcH : Nat) (pairs : List (Nat × Nat))
    (p0 p1 : Nat) {g : Nat} (hg : g ≠ dstH) :
    ((eqs_array_move_samples_from H dstH srcH pairs p0 p1).2)[g]? = H[g]? := by
  unfold eqs_array_move_samples_from
  repeat' split
  all_goals first | rfl | exact getElem?_set_of_ne hg

/-- Cells existing before `_eqs_array_create` / `_eqs_array_copy` are
never touched: both only ever append a fresh cell. -/
theorem getElem?_append_left_of_lt {α : Type} {l₁ l₂ : List α} {g : Nat}
    (hg : g < l₁.length) : (l₁ ++ l₂)[g]? = l₁[g]? := by
  rw [List.getElem?_append, if_pos hg]

/-! ## Concrete values used by witnesses and counterexamples -/

/-- Origin ids as registered by a fresh process that imported numpy first:
`equistore.data.numpy ↦ 1`, `equistore.data.torch ↦ 2`. -/
def demoIds : Backend → Nat
  | .numpy => 1
  | .torch => 2

/-- The spec's concrete scenario source: shape `(3, 2, 5)`, each row filled
with its row index. -/
def srcDemo : NDArray :=
  ⟨.numpy, 0, 0, [3, 2, 5],
    List.replicate 10 0 ++ List.replicate 10 1 ++ List.replicate 10 2, by decide⟩

/-- The spec's concrete scenario destination: shape `(4, 2, 5)`, zeros. -/
def dstDemo : NDArray := ⟨.numpy, 0, 0, [4, 2, 5], List.replicate 40 0, by decide⟩

/-- Heap holding the scenario's destination (handle 0) and source
(handle 1). -/
def demoHeap : Heap := [mkWrapper demoIds dstDemo, mkWrapper demoIds srcDemo]

/-- A compatible source for the amended scenario: shape `(3, 2, 3)` — its
last axis matches the slice width `4 - 1` — rows filled with the row
index. -/
def srcDemo3 : NDArray :=
  ⟨.numpy, 0, 0, [3, 2, 3],
    List.replicate 6 0 ++ List.replicate 6 1 ++ List.replicate 6 2, by decide⟩

/-- Heap for the amended scenario. -/
def demoHeap3 : Heap := [mkWrapper demoIds dstDemo, mkWrapper demoIds srcDemo3]

/-- A small rank-2 numpy array `[[0, 1, 2], [3, 4, 5]]`. -/
def arr23 : NDArray := ⟨.numpy, 0, 0, [2, 3], [0, 1, 2, 3, 4, 5], by decide⟩

/-- A torch array of the same shape (used for origin-mismatch tests). -/
def arr23t : NDArray := ⟨.torch, 0, 0, [2, 3], [0, 1, 2, 3, 4, 5], by decide⟩

/-! ## More characterisations of single operations -/

theorem eqs_array_swap_axes_ok_eq {H : Heap} {h : Nat} {w : ArrayWrapper} {a a' : NDArray}
    {i j : Nat} (hw : H[h]? = some w) (ha : w.array = some a)
    (hok : a.swapaxes i j = .ok a') :
    eqs_array_swap_axes H h i j = (none, H.set h ⟨some a', a'.shape, w.origin⟩) := by
  simp [eqs_array_swap_axes, hw, ha, hok]

theorem NDArray.reshape_ok_inv {a a' : NDArray} {s : List Nat} (h : a.reshape s = .ok a') :
    a'.shape = s ∧ a'.data = a.data ∧ a'.backend = a.backend ∧ a'.dtype = a.dtype ∧
      a'.device = a.device ∧ s.prod = a.shape.prod := by
  unfold NDArray.reshape at h
  split at h
  · cases h
    exact ⟨rfl, rfl, rfl, rfl, rfl, by assumption⟩
  · cases h

theorem moveSamplesArr_ok_shape {output input : NDArray} {pairs : List (Nat × Nat)}
    {p0 p1 : Nat} {out' : NDArray}
    (h : moveSamplesArr output input pairs p0 p1 = .ok out') : out'.shape = output.shape := by
  rw [moveSamplesArr_ok_inv h]
  rfl

theorem mem_of_getElem?_eq_some {α : Type} {l : List α} {n : Nat} {a : α}
    (h : l[n]? = some a) : a ∈ l := by
  have hn := lt_length_of_getElem?_eq_some h
  rw [List.getElem?_eq_getElem hn] at h
  cases h
  exact List.getElem_mem hn

/-- C7: for every live wrapper whose cached shape mirrors its array and
every pair of in-range axes `(i, j)`, two successive `swap_axes(i, j)`
calls both succeed and restore the heap cell exactly (same array contents,
shape and cache), leaving every other cell untouched throughout —
`swap_axes` is an involution. -/
theorem swap_axes_involution {H : Heap} {h i j : Nat} {w : ArrayWrapper} {a : NDArray}
    (hw : H[h]? = some w) (ha : w.array = some a) (hcache : w.shapeCache = a.shape)
    (hi : i < a.shape.length) (hj : j < a.shape.length) :
    (eqs_array_swap_axes H h i j).1 = none ∧
    (eqs_array_swap_axes (eqs_array_swap_axes H h i j).2 h i j).1 = none ∧
    ((eqs_array_swap_axes (eqs_array_swap_axes H h i j).2 h i j).2)[h]? = some w ∧
    ∀ g, g ≠ h → ((eqs_array_swap_axes (eqs_array_swap_axes H h i j).2 h i j).2)[g]? = H[g]? := by
  obtain ⟨a1, hok1⟩ : ∃ x, a.swapaxes i j = .ok x :=
    ⟨_, by rw [NDArray.swapaxes, if_pos ⟨hi, hj⟩]⟩
  have hlen : h < H.length := lt_length_of_getElem?_eq_some hw
  have hcall1 := eqs_array_swap_axes_ok_eq hw ha hok1
  have hw1 : (H.set h ⟨some a1, a1.shape, w.origin⟩)[h]? =
      some ⟨some a1, a1.shape, w.origin⟩ := List.getElem?_set_self hlen
  have hi1 : i < a1.shape.length := by
    rw [NDArray.shape_swapaxes hok1]
    simpa using hi
  have hj1 : j < a1.shape.length := by
    rw [NDArray.shape_swapaxes hok1]
    simpa using hj
  obtain ⟨a2, hok2⟩ : ∃ x, a1.swapaxes i j = .ok x :=
    ⟨_, by rw [NDArray.swapaxes, if_pos ⟨hi1, hj1⟩]⟩
  have ha2 : a2 = a := NDArray.swapaxes_swapaxes hi hj hok1 hok2
  have hcall2 := eqs_array_swap_axes_ok_eq hw1 rfl hok2
  refine ⟨by rw [hcall1], ?_, ?_, ?_⟩
  · rw [hcall1]
    show (eqs_array_swap_axes (H.set h ⟨some a1, a1.shape, w.origin⟩) h i j).1 = none
    rw [hcall2]
  · rw [hcall1]
    show ((eqs_array_swap_axes (H.set h ⟨some a1, a1.shape, w.origin⟩) h i j).2)[h]? = some w
    rw [hcall2]
    show ((H.set h _).set h ⟨some a2, a2.shape, w.origin⟩)[h]? = some w
    rw [List.set_set, List.getElem?_set_self hlen, ha2]
    cases w
    cases ha
    cases hcache
    rfl
  · intro g hg
    rw [hcall1]
    show ((eqs_array_swap_axes (H.set h ⟨some a1, a1.shape, w.origin⟩) h i j).2)[g]? = H[g]?
    rw [hcall2]
    show ((H.set h _).set h ⟨some a2, a2.shape, w.origin⟩)[g]? = H[g]?
    rw [getElem?_set_of_ne hg, getElem?_set_of_ne hg]

/-- Witness for C7 at a concrete 2×3 array and axes (0, 1). -/
theorem swap_axes_involution_witness :
    ((eqs_array_swap_axes (eqs_array_swap_axes [mkWrapper demoIds arr23] 0 0 1).2 0 0 1).2)[0]? =
      some (mkWrapper demoIds arr23) :=
  (@swap_axes_involution [mkWrapper demoIds arr23] 0 0 1 (mkWrapper demoIds arr23) arr23
    rfl rfl rfl (by decide) (by decide)).2.2.1

/-- C10: `destroy` only sets the wrapper's array reference to `None`,
keeping the cached shape and origin and every other heap cell; a second
`destroy` on the same wrapper succeeds and leaves the state exactly as
after the first — the implementation is idempotent. -/
theorem destroy_idempotent {H : Heap} {h : Nat} {w : ArrayWrapper} (hw : H[h]? = some w) :
    eqs_array_destroy H h = (none, H.set h ⟨none, w.shapeCache, w.origin⟩) ∧
    eqs_array_destroy (H.set h ⟨none, w.shapeCache, w.origin⟩) h =
      (none, H.set h ⟨none, w.shapeCache, w.origin⟩) ∧
    ∀ g, g ≠ h → (H.set h ⟨none, w.shapeCache, w.origin⟩)[g]? = H[g]? := by
  have hlen : h < H.length := lt_length_of_getElem?_eq_some hw
  refine ⟨by simp [eqs_array_destroy, hw], ?_, fun g hg => getElem?_set_of_ne hg⟩
  simp [eqs_array_destroy, List.getElem?_set_self hlen, List.set_set]

/-- Witness for C10: destroying a concrete wrapper twice. -/
theorem destroy_idempotent_witness :
    eqs_array_destroy ([mkWrapper demoIds arr23].set 0
        ⟨none, (mkWrapper demoIds arr23).shapeCache, (mkWrapper demoIds arr23).origin⟩) 0 =
      (none, [mkWrapper demoIds arr23].set 0
        ⟨none, (mkWrapper demoIds arr23).shapeCache, (mkWrapper demoIds arr23).origin⟩) :=
  (@destroy_idempotent [mkWrapper demoIds arr23] 0 (mkWrapper demoIds arr23) rfl).2.1

/-! ## The shape-cache invariant -/

/-- The wrapper invariant of C8: the cached `_shape` mirrors the live
array's shape (vacuous for a destroyed wrapper). -/
def ShapeConsistent (w : ArrayWrapper) : Prop :=
  ∀ a, w.array = some a → w.shapeCache = a.shape

/-- All wrappers on the heap satisfy the shape-cache invariant. -/
def HeapConsistent (H : Heap) : Prop := ∀ w ∈ H, ShapeConsistent w

/-- C8: every wrapper starts consistent at construction, and every
operation — `reshape`, `swap_axes`, `create` and `copy` (including the
fresh child), `destroy` and `move_samples_from` — preserves the invariant
that each wrapper's cached shape equals its underlying array's shape. -/
theorem shape_cache_invariant (ids : Backend → Nat) :
    (∀ a : NDArray, ShapeConsistent (mkWrapper ids a)) ∧
    (∀ H h s, HeapConsistent H → HeapConsistent (eqs_array_reshape H h s).2) ∧
    (∀ H h i j, HeapConsistent H → HeapConsistent (eqs_array_swap_axes H h i j).2) ∧
    (∀ H h s, HeapConsistent H → HeapConsistent (eqs_array_create ids H h s).2) ∧
    (∀ H h, HeapConsistent H → HeapConsistent (eqs_array_copy ids H h).2) ∧
    (∀ H h, HeapConsistent H → HeapConsistent (eqs_array_destroy H h).2) ∧
    (∀ H dstH srcH pairs p0 p1, HeapConsistent H →
      HeapConsistent (eqs_array_move_samples_from H dstH srcH pairs p0 p1).2) := by
  have hmk : ∀ a : NDArray, ShapeConsistent (mkWrapper ids a) := by
    intro a b hb
    cases hb
    rfl
  refine ⟨hmk, ?_, ?_, ?_, ?_, ?_, ?_⟩
  · intro H h s hH
    rcases hw : H[h]? with _ | w
    · simpa [eqs_array_reshape, hw] using hH
    rcases ha : w.array with _ | a
    · simpa [eqs_array_reshape, hw, ha] using hH
    rcases hr : a.reshape s with e | a'
    · simpa [eqs_array_reshape, hw, ha, hr] using hH
    intro w' hw'
    simp only [eqs_array_reshape, hw, ha, hr] at hw'
    rcases List.mem_or_eq_of_mem_set hw' with hmem | rfl
    · exact hH _ hmem
    · intro b hb
      cases hb
      exact (NDArray.reshape_ok_inv hr).1.symm
  · intro H h i j hH
    rcases hw : H[h]? with _ | w
    · simpa [eqs_array_swap_axes, hw] using hH
    rcases ha : w.array with _ | a
    · simpa [eqs_array_swap_axes, hw, ha] using hH
    rcases hr : a.swapaxes i j with e | a'
    · simpa [eqs_array_swap_axes, hw, ha, hr] using hH
    intro w' hw'
    simp only [eqs_array_swap_axes, hw, ha, hr] at hw'
    rcases List.mem_or_eq_of_mem_set hw' with hmem | rfl
    · exact hH _ hmem
    · intro b hb
      cases hb
      rfl
  · intro H h s hH
    rcases hw : H[h]? with _ | w
    · simpa [eqs_array_create, hw] using hH
    rcases ha : w.array with _ | a
    · simpa [eqs_array_create, hw, ha] using hH
    intro w' hw'
    simp only [eqs_array_create, hw, ha] at hw'
    rcases List.mem_append.mp hw' with hmem | hmem
    · exact hH _ hmem
    · rw [List.mem_singleton] at hmem
      subst hmem
      exact hmk _
  · intro H h hH
    rcases hw : H[h]? with _ | w
    · simpa [eqs_array_copy, hw] using hH
    rcases ha : w.array with _ | a
    · simpa [eqs_array_copy, hw, ha] using hH
    intro w' hw'
    simp only [eqs_array_copy, hw, ha] at hw'
    rcases List.mem_append.mp hw' with hmem | hmem
    · exact hH _ hmem
    · rw [List.mem_singleton] at hmem
      subst hmem
      exact hmk _
  · intro H h hH
    rcases hw : H[h]? with _ | w
    · simpa [eqs_array_destroy, hw] using hH
    intro w' hw'
    simp only [eqs_array_destroy, hw] at hw'
    rcases List.mem_or_eq_of_mem_set hw' with hmem | rfl
    · exact hH _ hmem
    · intro b hb
      cases hb
  · intro H dstH srcH pairs p0 p1 hH
    rcases hwd : H[dstH]? with _ | wd
    · rcases hws : H[srcH]? with _ | ws <;>
        simpa [eqs_array_move_samples_from, hwd, hws] using hH
    rcases hws : H[srcH]? with _ | ws
    · simpa [eqs_array_move_samples_from, hwd, hws] using hH
    rcases had : wd.array with _ | d
    · rcases has : ws.array with _ | s <;>
        simpa [eqs_array_move_samples_from, hwd, hws, had, has] using hH
    rcases has : ws.array with _ | s
    · simpa [eqs_array_move_samples_from, hwd, hws, had, has] using hH
    rcases hmv : moveSamplesArr d s pairs p0 p1 with e | d'
    · simpa [eqs_array_move_samples_from, hwd, hws, had, has, hmv] using hH
    intro w' hw'
    simp only [eqs_array_move_samples_from, hwd, hws, had, has, hmv] at hw'
    rcases List.mem_or_eq_of_mem_set hw' with hmem | rfl
    · exact hH _ hmem
    · intro b hb
      cases hb
      rw [moveSamplesArr_ok_shape hmv]
      exact hH wd (mem_of_getElem?_eq_some hwd) d had

/-- Witness for C8: the invariant holds on a concrete heap after a
concrete reshape. -/
theorem shape_cache_invariant_witness :
    HeapConsistent (eqs_array_reshape [mkWrapper demoIds arr23] 0 [3, 2]).2 :=
  (shape_cache_invariant demoIds).2.1 [mkWrapper demoIds arr23] 0 [3, 2]
    (fun w hw a ha => by
      rw [List.mem_singleton] at hw
      subst hw
      cases ha
      rfl)

/-- C4 (amended): `reshape` succeeds exactly when the element counts
match — regardless of how many dimensions the new shape has — updating the
array's logical shape and the cached `_shape` atomically while keeping the
flat row-major contents; on a count mismatch it fails with `InvalidShape`
and the heap (array and cached shape included) is exactly as before. -/
theorem reshape_spec {H : Heap} {h : Nat} {s : List Nat} {w : ArrayWrapper} {a : NDArray}
    (hw : H[h]? = some w) (ha : w.array = some a) :
    (s.prod = a.shape.prod →
      ∃ a', eqs_array_reshape H h s = (none, H.set h ⟨some a', s, w.origin⟩) ∧
        a'.shape = s ∧ a'.data = a.data ∧ a'.backend = a.backend ∧
        a'.dtype = a.dtype ∧ a'.device = a.device) ∧
    (s.prod ≠ a.shape.prod → eqs_array_reshape H h s = (some .invalidShape, H)) := by
  constructor
  · intro hprod
    have hok : a.reshape s = .ok ⟨a.backend, a.dtype, a.device, s, a.data,
        by rw [a.hdata, hprod]⟩ := by
      rw [NDArray.reshape, dif_pos hprod]
    refine ⟨⟨a.backend, a.dtype, a.device, s, a.data, by rw [a.hdata, hprod]⟩,
      ?_, rfl, rfl, rfl, rfl, rfl⟩
    simp [eqs_array_reshape, hw, ha, hok]
  · intro hprod
    have herr : a.reshape s = .error .invalidShape := by
      rw [NDArray.reshape, dif_neg hprod]
    simp [eqs_array_reshape, hw, ha, herr]

/-- Witness for C4 (amended), failure branch: reshaping a 2×3 array to
`(1, 7)` fails with `InvalidShape` and leaves the heap untouched. -/
theorem reshape_spec_witness :
    eqs_array_reshape [mkWrapper demoIds arr23] 0 [1, 7] =
      (some .invalidShape, [mkWrapper demoIds arr23]) :=
  (@reshape_spec [mkWrapper demoIds arr23] 0 [1, 7] (mkWrapper demoIds arr23) arr23
    rfl rfl).2 (by decide)

/-- C4 counterexample: the claim says a requested shape with fewer than two
dimensions must fail with `InvalidShape`, but reshaping the 2×3 array to
the rank-1 shape `(6,)` (matching element count) succeeds and the cached
shape becomes `[6]`. -/
theorem reshape_rank1_counterexample :
    (eqs_array_reshape [mkWrapper demoIds arr23] 0 [6]).1 = none ∧
    eqs_array_shape (eqs_array_reshape [mkWrapper demoIds arr23] 0 [6]).2 0 = .ok [6] :=
  ⟨rfl, rfl⟩

/-- C5: `create(a, s)` always succeeds, appending a fresh wrapper (handle =
old heap length) around a zero-filled array of shape `s` with `a`'s
backend, element type, device (numpy arrays live on the host device, which
is where `np.zeros` allocates) and origin; no existing cell is touched. -/
theorem create_spec {ids : Backend → Nat} {H : Heap} {h : Nat} {s : List Nat}
    {w : ArrayWrapper} {a : NDArray}
    (hw : H[h]? = some w) (ha : w.array = some a)
    (horg : w.origin = ids a.backend)
    (hdev : a.backend = .numpy → a.device = hostDevice) :
    ∃ c : NDArray,
      eqs_array_create ids H h s = (none, H ++ [⟨some c, s, w.origin⟩]) ∧
      c.shape = s ∧ (∀ idx : List Nat, c.get idx = 0) ∧
      c.backend = a.backend ∧ c.dtype = a.dtype ∧ c.device = a.device ∧
      (H ++ [⟨some c, s, w.origin⟩])[H.length]? = some ⟨some c, s, w.origin⟩ ∧
      ∀ g, g < H.length → (H ++ [⟨some c, s, w.origin⟩])[g]? = H[g]? := by
  refine ⟨ndZeros a.backend a.dtype (newDevice a) s, ?_, rfl, ndZeros_get _ _ _ _, rfl, rfl,
    ?_, List.getElem?_concat_length _ _, fun g hg => getElem?_append_left_of_lt hg⟩
  · have : mkWrapper ids (ndZeros a.backend a.dtype (newDevice a) s) =
        ⟨some (ndZeros a.backend a.dtype (newDevice a) s), s, w.origin⟩ := by
      rw [horg]
      rfl
    rw [← this]
    simp [eqs_array_create, hw, ha]
  · show newDevice a = a.device
    unfold newDevice
    cases hb : a.backend
    · exact (hdev hb).symm
    · rfl

/-- Witness for C5 at a concrete parent and shape. -/
theorem create_spec_witness :
    (eqs_array_create demoIds [mkWrapper demoIds arr23] 0 [2, 2]).1 = none := by
  obtain ⟨c, hc, -⟩ := @create_spec demoIds [mkWrapper demoIds arr23] 0 [2, 2]
    (mkWrapper demoIds arr23) arr23 rfl rfl rfl (fun _ => rfl)
  rw [hc]

/-- C6: `copy` appends a fresh wrapper around `storage.array.copy()` — an
array equal to the original in contents, shape and tags — touching no
existing cell; and because every mutating operation only ever writes the
heap cell it addresses, mutating the copy through `reshape` or
`move_samples_from` never changes the original's cell, and vice versa. -/
theorem copy_independent {ids : Backend → Nat} {H : Heap} {h : Nat} {w : ArrayWrapper}
    {a : NDArray} (hw : H[h]? = some w) (ha : w.array = some a) :
    eqs_array_copy ids H h = (none, H ++ [mkWrapper ids a.copy]) ∧
    a.copy = a ∧
    (mkWrapper ids a.copy).array = some a ∧
    (H ++ [mkWrapper ids a.copy])[H.length]? = some (mkWrapper ids a.copy) ∧
    (∀ g, g < H.length → (H ++ [mkWrapper ids a.copy])[g]? = H[g]?) ∧
    (∀ H' : Heap, ∀ hc : Nat, ∀ s' : List Nat, ∀ g, g ≠ hc →
      ((eqs_array_reshape H' hc s').2)[g]? = H'[g]?) ∧
    (∀ H' : Heap, ∀ hc srcH : Nat, ∀ pairs : List (Nat × Nat), ∀ p0 p1 : Nat, ∀ g, g ≠ hc →
      ((eqs_array_move_samples_from H' hc srcH pairs p0 p1).2)[g]? = H'[g]?) :=
  ⟨by simp [eqs_array_copy, hw, ha], rfl, rfl, List.getElem?_concat_length _ _,
    fun g hg => getElem?_append_left_of_lt hg,
    fun H' hc s' g hg => eqs_array_reshape_frame H' hc s' hg,
    fun H' hc srcH pairs p0 p1 g hg => eqs_array_move_frame H' hc srcH pairs p0 p1 hg⟩

/-- Witness for C6 at a concrete wrapper. -/
theorem copy_independent_witness :
    eqs_array_copy demoIds [mkWrapper demoIds arr23] 0 =
      (none, [mkWrapper demoIds arr23] ++ [mkWrapper demoIds arr23.copy]) :=
  (@copy_independent demoIds [mkWrapper demoIds arr23] 0 (mkWrapper demoIds arr23) arr23
    rfl rfl).1

/-- C1 (amended): for live wrappers holding arrays of rank at least 2, a
pair list with in-range row indices and pairwise-distinct destination
rows, equal middle dimensions, and a property range `p0 ≤ p1 ≤ L_dst`
whose width `p1 - p0` equals the source's entire last-axis extent,
`move_samples_from` succeeds and each paired destination row receives, on
`[p0, p1)` of its last axis, the source row's full last axis: position `q`
of the destination gets position `q - p0` of the source
(`dst[dr, ..., p0:p1] = src[sr, ..., :]`), not the source restricted to
the same sub-range `[p0, p1)`. -/
theorem move_samples_spec {H : Heap} {dstH srcH : Nat} {wd ws : ArrayWrapper} {d s : NDArray}
    {pairs : List (Nat × Nat)} {p0 p1 : Nat}
    (hd : H[dstH]? = some wd) (hs : H[srcH]? = some ws)
    (had : wd.array = some d) (has : ws.array = some s)
    (hrd : 2 ≤ d.shape.length) (hrs : 2 ≤ s.shape.length)
    (hrows_s : ∀ pr ∈ pairs, pr.1 < s.shape.headD 0)
    (hrows_d : ∀ pr ∈ pairs, pr.2 < d.shape.headD 0)
    (hmid : s.shape.tail.dropLast = d.shape.tail.dropLast)
    (hp01 : p0 ≤ p1) (hp1 : p1 ≤ d.shape.getLastD 0)
    (hlast : s.shape.getLastD 0 = p1 - p0)
    (hnodup : (pairs.map Prod.snd).Nodup) :
    ∃ d', eqs_array_move_samples_from H dstH srcH pairs p0 p1 =
        (none, H.set dstH ⟨some d', wd.shapeCache, wd.origin⟩) ∧
      d'.shape = d.shape ∧
      ∀ pr ∈ pairs, ∀ mid q, validIdx (pr.2 :: (mid ++ [q])) d.shape →
        p0 ≤ q → q < p1 →
        d'.get (pr.2 :: (mid ++ [q])) = s.get (pr.1 :: (mid ++ [q - p0])) := by
  have hwidth : s.shape.getLastD 0 = sliceWidth p0 p1 (d.shape.getLastD 0) := by
    unfold sliceWidth
    omega
  have hok := moveSamplesArr_eq_ok hrd hrs hrows_s hrows_d hmid hwidth
  refine ⟨assignSlot d s (pairs.map Prod.fst) (pairs.map Prod.snd) p0 p1,
    by simp [eqs_array_move_samples_from, hd, hs, had, has, hok], rfl, ?_⟩
  intro pr hpr mid q hv hq0 hq1
  have hpr' : (pr.1, pr.2) ∈ pairs := by rwa [Prod.mk.eta]
  exact assignSlot_get_addressed hrs hpr' hnodup hv hmid hlast hq0 hq1

/-- Witness for C1 (amended): the scenario with a compatible source of
shape `(3, 2, 3)` succeeds. -/
theorem move_samples_spec_witness :
    (eqs_array_move_samples_from demoHeap3 0 1 [(0, 1), (2, 3)] 1 4).1 = none := by
  obtain ⟨d', hc, -, -⟩ := @move_samples_spec demoHeap3 0 1 (mkWrapper demoIds dstDemo)
    (mkWrapper demoIds srcDemo3) dstDemo srcDemo3 [(0, 1), (2, 3)] 1 4
    rfl rfl rfl rfl (by decide) (by decide) (by decide) (by decide) (by decide)
    (by decide) (by decide) (by decide) (by decide)
  rw [hc]

/-- C1 counterexample: the claim's own concrete scenario — source of shape
`(3, 2, 5)` filled with its row index, destination of shape `(4, 2, 5)`
zeros, pairs `[(0, 1), (2, 3)]`, `p0 = 1`, `p1 = 4` — does not succeed:
the code's right-hand side `src[[0, 2], ..., :]` has shape `(2, 2, 5)`,
which does not fit the addressed slot of shape `(2, 2, 3)`, so the numpy
assignment raises (`ValueError`, a broadcast mismatch) and the heap is
unchanged, contradicting the claimed success and the claimed equality
`dst[dr, ..., p0:p1] == src[sr, ..., p0:p1]`. -/
theorem move_restricted_slice_counterexample :
    eqs_array_move_samples_from demoHeap 0 1 [(0, 1), (2, 3)] 1 4 =
      (some .broadcastMismatch, demoHeap) := rfl

/-- C2: a successful `move_samples_from` mutates only the destination
cell, and inside it only the addressed locations: every other heap cell
(the source in particular) is untouched, destination rows not named as a
`destination_row` keep all their values, and within addressed rows every
last-axis entry outside `[p0, p1)` keeps its value; the destination's
shape and cached shape are unchanged. -/
theorem move_samples_frame {H : Heap} {dstH srcH : Nat} {wd ws : ArrayWrapper} {d s : NDArray}
    {pairs : List (Nat × Nat)} {p0 p1 : Nat}
    (hd : H[dstH]? = some wd) (hs : H[srcH]? = some ws)
    (had : wd.array = some d) (has : ws.array = some s)
    (hok : (eqs_array_move_samples_from H dstH srcH pairs p0 p1).1 = none) :
    ∃ d', eqs_array_move_samples_from H dstH srcH pairs p0 p1 =
        (none, H.set dstH ⟨some d', wd.shapeCache, wd.origin⟩) ∧
      d'.shape = d.shape ∧
      (∀ g, g ≠ dstH → (H.set dstH ⟨some d', wd.shapeCache, wd.origin⟩)[g]? = H[g]?) ∧
      (∀ r mid q, validIdx (r :: (mid ++ [q])) d.shape → (∀ pr ∈ pairs, pr.2 ≠ r) →
        d'.get (r :: (mid ++ [q])) = d.get (r :: (mid ++ [q]))) ∧
      (∀ r mid q, validIdx (r :: (mid ++ [q])) d.shape → (q < p0 ∨ p1 ≤ q) →
        d'.get (r :: (mid ++ [q])) = d.get (r :: (mid ++ [q]))) := by
  rcases hmv : moveSamplesArr d s pairs p0 p1 with e | d'
  · exfalso
    simp [eqs_array_move_samples_from, hd, hs, had, has, hmv] at hok
  have hinv := moveSamplesArr_ok_inv hmv
  refine ⟨d', by simp [eqs_array_move_samples_from, hd, hs, had, has, hmv],
    moveSamplesArr_ok_shape hmv, fun g hg => getElem?_set_of_ne hg, ?_, ?_⟩
  · intro r mid q hv hnr
    rw [hinv]
    apply assignSlot_get_none hv
    apply lastIdxOf_eq_none
    intro x hx
    rcases List.mem_map.mp hx with ⟨pr, hpr, hpx⟩
    rw [← hpx]
    exact hnr pr hpr
  · intro r mid q hv hq
    rw [hinv]
    rcases hlio : lastIdxOf (pairs.map Prod.snd) r with _ | t
    · exact assignSlot_get_none hv hlio
    · apply assignSlot_get_outside hv hlio
      rintro ⟨hc1, hc2⟩
      have := lt_of_lt_of_le hc2 (min_le_left _ _)
      omega

/-- Witness for C2: after the successful concrete move, the source's heap
cell is exactly as before. -/
theorem move_samples_frame_witness :
    ((eqs_array_move_samples_from demoHeap3 0 1 [(0, 1), (2, 3)] 1 4).2)[1]? =
      some (mkWrapper demoIds srcDemo3) := by
  obtain ⟨d', hc, -, hframe, -, -⟩ := @move_samples_frame demoHeap3 0 1
    (mkWrapper demoIds dstDemo) (mkWrapper demoIds srcDemo3) dstDemo srcDemo3
    [(0, 1), (2, 3)] 1 4 rfl rfl rfl rfl rfl
  rw [hc]
  exact hframe 1 (by decide)

/-- C3: calling `move_samples_from` on records whose origins differ fails
with `OriginMismatch` and leaves the whole heap — the destination in
particular — exactly as it was; the cross-origin case is rejected by the
core before the destination's callback ever runs, never coerced. -/
theorem origin_mismatch_rejected {H : Heap} {dstH srcH : Nat} {wd ws : ArrayWrapper}
    {pairs : List (Nat × Nat)} {p0 p1 : Nat}
    (hd : H[dstH]? = some wd) (hs : H[srcH]? = some ws)
    (hne : wd.origin ≠ ws.origin) :
    eqs_move_samples_from H dstH srcH pairs p0 p1 = (some .originMismatch, H) := by
  simp [eqs_move_samples_from, hd, hs, hne]

/-- Witness for C3: a numpy-origin destination and a torch-origin source. -/
theorem origin_mismatch_rejected_witness :
    eqs_move_samples_from [mkWrapper demoIds dstDemo, mkWrapper demoIds arr23t] 0 1 [] 0 0 =
      (some .originMismatch, [mkWrapper demoIds dstDemo, mkWrapper demoIds arr23t]) :=
  @origin_mismatch_rejected [mkWrapper demoIds dstDemo, mkWrapper demoIds arr23t] 0 1
    (mkWrapper demoIds dstDemo) (mkWrapper demoIds arr23t) [] 0 0 rfl rfl (by decide)

/-- C9: origin registration is idempotent and stable.  The Python caches
(`_numpy_origin` / `_torch_origin`) are pure after their first call: a
second call returns the same id and leaves the state unchanged.  At the
registry level, registering a name, then a second distinct name, then the
first again (in a fresh process) yields exactly two distinct ids, the
third call returning the first id.  Concretely, the numpy backend gets id
1, the torch backend the distinct id 2, and re-requesting numpy's origin
returns the cached 1. -/
theorem origin_registration (n1 n2 : String) (hne : n1 ≠ n2) :
    (∀ st : OriginState, numpy_origin (numpy_origin st).1 = numpy_origin st) ∧
    (∀ st : OriginState, torch_origin (torch_origin st).1 = torch_origin st) ∧
    ((eqs_register_data_origin [] n1).2 ≠
        (eqs_register_data_origin (eqs_register_data_origin [] n1).1 n2).2 ∧
      (eqs_register_data_origin
          (eqs_register_data_origin (eqs_register_data_origin [] n1).1 n2).1 n1).2 =
        (eqs_register_data_origin [] n1).2) ∧
    ((numpy_origin ⟨[], none, none⟩).2 ≠ (torch_origin (numpy_origin ⟨[], none, none⟩).1).2 ∧
      (numpy_origin (torch_origin (numpy_origin ⟨[], none, none⟩).1).1).2 =
        (numpy_origin ⟨[], none, none⟩).2) := by
  have hb : (n1 == n2) = false := by
    rw [beq_eq_false_iff_ne]
    exact hne
  have step1 : eqs_register_data_origin [] n1 = ([n1], 1) := rfl
  have step2 : eqs_register_data_origin [n1] n2 = ([n1, n2], 2) := by
    simp [eqs_register_data_origin, List.findIdx?_cons, hb]
  have step3 : eqs_register_data_origin [n1, n2] n1 = ([n1, n2], 1) := by
    simp [eqs_register_data_origin, List.findIdx?_cons]
  refine ⟨?_, ?_, ?_, by decide, by decide⟩
  · intro st
    rcases st with ⟨reg, x1, x2⟩
    cases x1 <;> rfl
  · intro st
    rcases st with ⟨reg, x1, x2⟩
    cases x2 <;> rfl
  · rw [step1, step2, step3]
    refine ⟨?_, rfl⟩
    show (1 : Nat) ≠ 2
    decide

/-- Witness for C9 with the names "alpha" and "beta". -/
theorem origin_registration_witness :
    (eqs_register_data_origin [] "alpha").2 ≠
      (eqs_register_data_origin (eqs_register_data_origin [] "alpha").1 "beta").2 :=
  (origin_registration "alpha" "beta" (by decide)).2.2.1.1

end Equistore

